import Mathlib

/-!
Verification of the two core components of the `test-market` repository:

* `src/src/tma/inventory_matcher.py` — the inventory-block text parser and the
  name→id aggregation (`parse_add_listings_text`, `match_inventory`);
* `src/app/streamlit_app.py` — the token-bucket rate limiter (`TokenBucket`)
  and the multi-auth-mode retrying market fetcher (`attempt_call`, `fetch_100`).

The Python code is shallowly embedded: JSON values become an inductive type,
Python exceptions become `Except`, wall-clock sleeps are recorded as a trace of
durations (ℚ), network responses are an oracle indexed by attempt number, and
the rate-limiter debit performed by each attempt is counted.
-/

namespace TMarket

/-! ## JSON values and Python-semantics helpers -/

/-- A JSON value as produced by `resp.json()`.  Floats do not occur in any
property under consideration and are omitted from the embedding. -/
inductive JVal where
  | null
  | bool (b : Bool)
  | int (n : Int)
  | str (s : String)
  | arr (xs : List JVal)
  | obj (kvs : List (String × JVal))

/-- Python exceptions that the embedded fragments can raise. -/
inductive PyErr where
  | attributeError
  | typeError
deriving DecidableEq

/-- First-match association lookup, the embedding of Python `dict` access
(`dict` keys are unique, so first match is the match). -/
def jlookup : List (String × JVal) → String → Option JVal
  | [], _ => none
  | (k, v) :: rest, key => if k = key then some v else jlookup rest key

/-- Python truthiness of a JSON value. -/
def truthy : JVal → Bool
  | .null => false
  | .bool b => b
  | .int n => n != 0
  | .str s => !s.isEmpty
  | .arr xs => !xs.isEmpty
  | .obj kvs => !kvs.isEmpty

/-- Python `a or b`. -/
def pyOr (a b : JVal) : JVal := if truthy a then a else b

/-- Python `v.get(k, dflt)`: an `AttributeError` unless `v` is a dict. -/
def pyGet (v : JVal) (k : String) (dflt : JVal) : Except PyErr JVal :=
  match v with
  | .obj kvs => .ok ((jlookup kvs k).getD dflt)
  | _ => .error .attributeError

/-- `isinstance(data, dict) and "error" in data`. -/
def hasErrorKey : JVal → Bool
  | .obj kvs => (jlookup kvs "error").isSome
  | _ => false

/-- Python `v == z` for an integer literal `z` (`True == 1`, `False == 0`). -/
def jeqInt (v : JVal) (z : Int) : Bool :=
  match v with
  | .int n => n = z
  | .bool b => (if b then (1 : Int) else 0) = z
  | _ => false

/-- Python `str(v)`.  Container rendering is abbreviated: no property under
consideration inspects the rendering of a list or dict inside an error
message. -/
def pyStr : JVal → String
  | .null => "None"
  | .bool b => if b then "True" else "False"
  | .int n => toString n
  | .str s => s
  | .arr _ => "<list>"
  | .obj _ => "<dict>"

end TMarket

namespace TMarket

/-! ## The token bucket (`TokenBucket`, streamlit_app.py lines 27–44)

Time is modelled as ℚ; `time.perf_counter()` readings are passed in
explicitly.  One `tryTake` is one execution of the lock-protected critical
section of `take`; `take` iterates it over successive clock readings, exactly
like the `while True: … time.sleep(0.01)` loop. -/

structure TokenBucket where
  rate_per_sec : ℚ
  capacity : ℚ
  tokens : ℚ
  last : ℚ
deriving DecidableEq

namespace TokenBucket

/-- `TokenBucket.__init__`: `capacity or rate_per_min` (0 is falsy),
`rate_per_sec = rate_per_min / 60`, starts full at clock reading `now`. -/
def init (rate_per_min : ℚ) (capacity : Option ℚ) (now : ℚ) : TokenBucket :=
  let cap := match capacity with
    | some c => if c = 0 then rate_per_min else c
    | none => rate_per_min
  { rate_per_sec := rate_per_min / 60
    capacity := cap
    tokens := cap
    last := now }

/-- The lazy continuous refill performed at the top of the critical section. -/
def refill (b : TokenBucket) (now : ℚ) : TokenBucket :=
  { b with
    tokens := min b.capacity (b.tokens + (now - b.last) * b.rate_per_sec)
    last := now }

/-- One execution of the critical section of `take`: refill, then debit `n`
tokens if at least `n` are available. -/
def tryTake (b : TokenBucket) (now : ℚ) (n : ℚ) : TokenBucket × Bool :=
  let b2 := b.refill now
  if n ≤ b2.tokens then ({ b2 with tokens := b2.tokens - n }, true) else (b2, false)

/-- The blocking `take` loop: retry the critical section at each successive
clock reading until the debit succeeds (or the supplied readings run out). -/
def take (b : TokenBucket) (times : List ℚ) (n : ℚ) : TokenBucket × Bool :=
  match times with
  | [] => (b, false)
  | now :: rest =>
    if (b.tryTake now n).2 then ((b.tryTake now n).1, true)
    else (b.tryTake now n).1.take rest n

end TokenBucket

/-! ## The market fetcher (`fetch_100`, streamlit_app.py lines 86–147)

The network is an oracle mapping the global attempt counter to an outcome:
either a transport-level exception (anything raised inside `attempt_call`,
including `resp.json()` failures) or an HTTP status plus parsed JSON body.
Each attempt debits one rate-limiter token (`bucket.take(1)` runs before
`session.get`), so tokens consumed = attempts made; `time.sleep` calls are
recorded as a list of durations. -/

/-- One network attempt as seen by `fetch_100`. -/
inductive AttemptOutcome where
  | exn (msg : String)
  | resp (status : Int) (data : JVal)

/-- The `status` value bound by `fetch_100` for an attempt (`None` when the
attempt raised). -/
def attemptStatus : AttemptOutcome → Option Int
  | .exn _ => none
  | .resp s _ => some s

/-- The `data` value bound by `fetch_100` for an attempt: the body, or the
sentinel `{"error": {"code": -1, "error": str(exc)}}` when the attempt
raised. -/
def attemptData : AttemptOutcome → JVal
  | .exn m => .obj [("error", .obj [("code", .int (-1)), ("error", .str m)])]
  | .resp _ d => d

/-- `status in (429, 500, 502, 503, 504)` (false for `None`). -/
def retryableStatus : Option Int → Bool
  | none => false
  | some s => s = 429 || s = 500 || s = 502 || s = 503 || s = 504

/-- What `fetch_100` does with one attempt's `(status, data)` at auth mode
`mode` (lines 102–118 plus the fall-through to the success path). -/
inductive Action where
  | advance                  -- `code == 2 and mode != 3`: try the next auth mode
  | backoff                  -- transient: sleep, grow backoff, break to next cycle
  | fatal (message : String) -- any other error code: terminal ErrorRow
  | success                  -- no error object: build the MarketRow
  | crash (e : PyErr)        -- `data["error"]` is not a dict: `.get` raises

/-- The per-attempt classification of lines 102–118.  `code` and `msg` are
read with `.get` from `data["error"]`, which raises unless that value is a
dict. -/
def classify (status : Option Int) (data : JVal) (mode : Nat) : Action :=
  match data with
  | .obj kvs =>
    match jlookup kvs "error" with
    | some errv =>
      match errv with
      | .obj ekvs =>
        let code := (jlookup ekvs "code").getD .null
        let msg := (jlookup ekvs "error").getD .null
        if jeqInt code 2 && mode != 3 then .advance
        else if jeqInt code 0 || jeqInt code 10 || retryableStatus status then .backoff
        else .fatal ("API error " ++ pyStr code ++ ": " ++ pyStr msg)
      | _ => .crash .attributeError
    | none => .success
  | _ => .success

/-- A normalized successful row: the scalar fields plus the 100
`(price_i, amount_i)` slot pairs. -/
structure MarketRow where
  item_id : JVal
  item_name : JVal
  item_type : JVal
  average_price : JVal
  my_quantity : Int
  slots : List (JVal × JVal)

/-- The `(listing.get("price"), listing.get("amount"))` extraction over the
first `n` listings, in upstream order; raises if a listing is not a dict. -/
def listingSlots : List JVal → Except PyErr (List (JVal × JVal))
  | [] => .ok []
  | l :: ls => do
    let p ← pyGet l "price" .null
    let a ← pyGet l "amount" .null
    let rest ← listingSlots ls
    .ok ((p, a) :: rest)

/-- The success path of `fetch_100` (lines 120–142): unwrap `itemmarket`,
`item` and `listings` with `or`-defaults, compute `n = min(len(listings),
100)`, build the row fields, fill slots `1..n` from the listings and
null-fill `n+1..100`.  A truthy non-dict `data` (or non-dict `itemmarket` /
`item`) raises `AttributeError` at the corresponding `.get`; `len` of a
non-sized `listings` value raises `TypeError`; a (necessarily non-empty)
string `listings` raises `AttributeError` on its first character's `.get`;
slicing a dict raises `TypeError`. -/
def successPath (data : JVal) (item_id my_quantity : Int) : Except PyErr MarketRow := do
  let itemmarket := pyOr (← pyGet (pyOr data (.obj [])) "itemmarket" (.obj [])) (.obj [])
  let item := pyOr (← pyGet itemmarket "item" (.obj [])) (.obj [])
  let listingsV := pyOr (← pyGet itemmarket "listings" (.arr [])) (.arr [])
  let n ← (match listingsV with
    | .arr xs => .ok (min xs.length 100)
    | .str s => .ok (min s.length 100)
    | .obj kvs => .ok (min kvs.length 100)
    | _ => .error PyErr.typeError)
  let iid ← pyGet item "id" (.int item_id)
  let iname ← pyGet item "name" .null
  let itype ← pyGet item "type" .null
  let iavg ← pyGet item "average_price" .null
  let filled ← (match listingsV with
    | .arr xs => listingSlots (xs.take n)
    | .str _ => .error PyErr.attributeError
    | _ => .error PyErr.typeError)
  pure ⟨iid, iname, itype, iavg, my_quantity,
        filled ++ List.replicate (100 - n) (.null, .null)⟩

/-- The per-item outcome: a MarketRow or an ErrorRow. -/
inductive Row where
  | market (r : MarketRow)
  | error (item_id : Int) (my_quantity : Int) (message : String)

/-- The observable behaviour of one `fetch_100` call: the returned row (or
the Python exception it raised), the `time.sleep` durations in order, and the
number of rate-limiter tokens debited. -/
structure FetchOut where
  result : Except PyErr Row
  sleeps : List ℚ
  tokens : Nat

/-- The `for mode in (1, 2, 3)` loop of one retry cycle, with `t` the global
attempt counter.  `done` is a `return` (or an uncaught exception); `broke`
means control reached the end-of-cycle `time.sleep(backoff)` at line 144 —
either via the transient `break` (which has already slept once and grown the
backoff once) or by exhausting the mode tuple. -/
inductive CycleOut where
  | done (result : Except PyErr Row) (sleeps : List ℚ) (next : Nat)
  | broke (sleeps : List ℚ) (next : Nat) (backoff : ℚ)

def innerCycle (oracle : Nat → AttemptOutcome) (item_id my_quantity : Int) :
    List Nat → Nat → ℚ → CycleOut
  | [], t, backoff => .broke [] t backoff
  | mode :: rest, t, backoff =>
    let a := oracle t
    match classify (attemptStatus a) (attemptData a) mode with
    | .advance => innerCycle oracle item_id my_quantity rest (t + 1) backoff
    | .backoff => .broke [backoff] (t + 1) (backoff * (8 / 5))
    | .fatal msg => .done (.ok (.error item_id my_quantity msg)) [] (t + 1)
    | .success =>
        .done ((successPath (attemptData a) item_id my_quantity).map .market) [] (t + 1)
    | .crash e => .done (.error e) [] (t + 1)

/-- The `for _ in range(1, RETRIES + 1)` loop (fuel = cycles remaining).
After a non-returning cycle, lines 144–145 sleep for the current backoff and
multiply it by 1.6 — this runs in addition to the sleep/growth already done
by the transient branch before its `break`. -/
def fetchLoop (oracle : Nat → AttemptOutcome) (item_id my_quantity : Int) :
    Nat → Nat → ℚ → FetchOut
  | 0, t, _ => ⟨.ok (.error item_id my_quantity "Exhausted retries"), [], t⟩
  | cycles + 1, t, backoff =>
    match innerCycle oracle item_id my_quantity [1, 2, 3] t backoff with
    | .done r s t2 => ⟨r, s, t2⟩
    | .broke s t2 b2 =>
      let rest := fetchLoop oracle item_id my_quantity cycles t2 (b2 * (8 / 5))
      ⟨rest.result, s ++ b2 :: rest.sleeps, rest.tokens⟩

def RETRIES : Nat := 3

/-- `fetch_100(session, bucket, api_key, item_id, my_quantity)` with the
network abstracted by `oracle`: `backoff = 0.8`, attempt counter starts at
zero. -/
def fetch_100 (oracle : Nat → AttemptOutcome) (item_id my_quantity : Int) : FetchOut :=
  fetchLoop oracle item_id my_quantity RETRIES 0 (4 / 5)

/-! ## The inventory parser (`inventory_matcher.py`)

Lines are lists of characters; Python `\s` / `str.strip` whitespace is
modelled by `Char.isWhitespace` (the claims only exercise ASCII whitespace),
and `str.splitlines` by splitting on the newline character. -/

def isPySpace (c : Char) : Bool := c.isWhitespace

/-- `raw_text.splitlines()` for newline-separated text. -/
def splitOnNl : List Char → List (List Char)
  | [] => [[]]
  | c :: cs =>
    if c = '\n' then [] :: splitOnNl cs
    else
      match splitOnNl cs with
      | l :: ls => (c :: l) :: ls
      | [] => [[c]]

/-- Python `str.strip()`. -/
def pyStrip (cs : List Char) : List Char :=
  ((cs.dropWhile isPySpace).reverse.dropWhile isPySpace).reverse

/-- `_clean_line`: replace non-breaking spaces by spaces, then strip. -/
def cleanLine (cs : List Char) : String :=
  String.mk (pyStrip (cs.map (fun c => if c = '\u00A0' then ' ' else c)))

/-- `int(<digits>)`. -/
def digitsVal (ds : List Char) : Nat :=
  ds.foldl (fun n c => 10 * n + (c.toNat - 48)) 0

/-- `_QTY_LINE_RE`: `^x\s*(\d+)$`, case-insensitive; returns the quantity. -/
def parseQtyLine (s : String) : Option Nat :=
  match s.data with
  | c :: rest =>
    if c = 'x' ∨ c = 'X' then
      let ds := rest.dropWhile isPySpace
      if ds ≠ [] ∧ ds.all Char.isDigit then some (digitsVal ds) else none
    else none
  | [] => none

/-- `_NAME_QTY_SAME_LINE_RE`: `^(.*)\s+x\s*(\d+)$`, case-insensitive, with the
greedy `(.*)`.  Scanning from the right: the digits are the maximal trailing
digit run, preceded by optional whitespace, then `x`/`X`, then at least one
whitespace character; the name part is everything before, stripped (the code
applies `.strip()` to group 1, so where the greedy `(.*)` ends inside the
whitespace run is immaterial). -/
def nameQtySplit (s : String) : Option (String × Nat) :=
  let rcs := s.data.reverse
  let ds := rcs.takeWhile Char.isDigit
  if ds.isEmpty then none
  else
    let r2 := (rcs.drop ds.length).dropWhile isPySpace
    match r2 with
    | c :: r3 =>
      if (c = 'x' ∨ c = 'X') ∧ r3 ≠ [] ∧ (r3.headD ' ').isWhitespace then
        some (String.mk (pyStrip r3.reverse), digitsVal ds.reverse)
      else none
    | [] => none

/-- `line.lower() == "equipped" or line.lower() == "untradable"` (ASCII
lowering). -/
def isOmitLine (l : String) : Bool :=
  let low := String.mk (l.data.map Char.toLower)
  low = "equipped" || low = "untradable"

/-- One parsed block: `(name, qty, is_omitted)`. -/
abbrev Entry := String × Nat × Bool

/-- The accumulator state of `parse_add_listings_text`:
`current_name`, `current_qty`, `current_omitted`. -/
structure PState where
  name : Option String
  qty : Nat
  omitted : Bool

/-- `flush()`: emit the current block if a name is set. -/
def flushEntry (st : PState) : List Entry :=
  match st.name with
  | some n => [(n, st.qty, st.omitted)]
  | none => []

/-- The state after starting a new block. -/
def freshState (n : String) (q : Nat) : PState := ⟨some n, q, false⟩

/-- The line loop of `parse_add_listings_text`, with the final unconditional
flush at the end of input.  Branch order mirrors the source: exact valid-name
match; name-with-inline-qty whose name part is valid; orphan-line skip;
omission marker; standalone quantity line; ignore. -/
def parseLines (valid : List String) : List String → PState → List Entry
  | [], st => flushEntry st
  | l :: ls, st =>
    if l ∈ valid then
      flushEntry st ++ parseLines valid ls (freshState l 1)
    else
      match nameQtySplit l with
      | some (nm, q) =>
        if nm ∈ valid then
          flushEntry st ++ parseLines valid ls (freshState nm q)
        else if st.name = none then
          parseLines valid ls st
        else if isOmitLine l then
          parseLines valid ls { st with omitted := true }
        else
          match parseQtyLine l with
          | some q2 => parseLines valid ls { st with qty := q2 }
          | none => parseLines valid ls st
      | none =>
        if st.name = none then
          parseLines valid ls st
        else if isOmitLine l then
          parseLines valid ls { st with omitted := true }
        else
          match parseQtyLine l with
          | some q2 => parseLines valid ls { st with qty := q2 }
          | none => parseLines valid ls st

/-- `parse_add_listings_text(raw_text, valid_item_names)`. -/
def parse_add_listings_text (raw : String) (valid : List String) : List Entry :=
  let lines := ((splitOnNl raw.data).map cleanLine).filter (fun l => l ≠ "")
  parseLines valid lines ⟨none, 1, false⟩

/-! ## Aggregation (`match_inventory`, inventory_matcher.py lines 136–163)

The loaded dictionary is an association list with first-match lookup (a
Python `dict` has unique keys); the `aggregated` Python dict keyed by
`item_id` is an insertion-ordered association list whose in-place value
update preserves position. -/

/-- `name_to_id.get(name)`. -/
def dlookup (d : List (String × Int)) (n : String) : Option Int :=
  match d with
  | [] => none
  | (k, v) :: rest => if k = n then some v else dlookup rest n

/-- `aggregated[item_id] = (prev_name, prev_qty + qty)` /
`aggregated[item_id] = (name, qty)`: update the first entry with this id in
place, else append. -/
def aggUpdate : List (Int × String × Nat) → Int → String → Nat → List (Int × String × Nat)
  | [], i, n, q => [(i, n, q)]
  | (i2, n2, q2) :: rest, i, n, q =>
    if i2 = i then (i2, n2, q2 + q) :: rest
    else (i2, n2, q2) :: aggUpdate rest i n q

/-- One iteration of the aggregation loop over the parsed entries. -/
def aggStep (dict : List (String × Int))
    (acc : List (Int × String × Nat) × List (String × Nat)) (e : Entry) :
    List (Int × String × Nat) × List (String × Nat) :=
  if e.2.2 then acc
  else
    match dlookup dict e.1 with
    | none => (acc.1, acc.2 ++ [(e.1, e.2.1)])
    | some i => (aggUpdate acc.1 i e.1 e.2.1, acc.2)

/-- `MatchedItem`. -/
structure MatchedItem where
  name : String
  item_id : Int
  qty : Nat
deriving DecidableEq

/-- `matched.sort(key=lambda x: x.name)`: ascending by name.  Python's sort
is stable; the matched names are pairwise distinct (each resolves to a
distinct id), so insertion sort on `≤` computes the same list. -/
def leName (a b : MatchedItem) : Prop := a.name ≤ b.name

instance : DecidableRel leName := fun a b =>
  inferInstanceAs (Decidable (a.name ≤ b.name))

instance : IsTotal MatchedItem leName := ⟨fun a b => le_total a.name b.name⟩

instance : IsTrans MatchedItem leName := ⟨fun _ _ _ h h2 => le_trans h h2⟩

/-- `match_inventory(raw_text, dict)`: parse with the dictionary's key set as
the valid names, aggregate, sort the matched items by name.  Returns
`(matched, unmatched)`. -/
def match_inventory (raw : String) (dict : List (String × Int)) :
    List MatchedItem × List (String × Nat) :=
  let valid := dict.map Prod.fst
  let parsed := parse_add_listings_text raw valid
  let p := parsed.foldl (aggStep dict) ([], [])
  (List.insertionSort leName (p.1.map (fun x => ⟨x.2.1, x.1, x.2.2⟩)), p.2)

/-! ## Well-formed response bodies

Spec-side predicates describing the response-body shapes on which the
success path of `fetch_100` cannot raise, and the slot extraction it
performs on them. -/

def isObjB : JVal → Bool
  | .obj _ => true
  | _ => false

/-- The `itemmarket` value after the `or {}` defaults. -/
def imOf (kvs : List (String × JVal)) : JVal :=
  pyOr ((jlookup kvs "itemmarket").getD (.obj [])) (.obj [])

/-- The `item` value after the `or {}` defaults. -/
def itemOf (ikvs : List (String × JVal)) : JVal :=
  pyOr ((jlookup ikvs "item").getD (.obj [])) (.obj [])

/-- The `listings` value after the `or []` defaults. -/
def listingsOf (ikvs : List (String × JVal)) : JVal :=
  pyOr ((jlookup ikvs "listings").getD (.arr [])) (.arr [])

/-- A response body `fetch_100` can fully process without raising: a dict
whose `error` member (when present) is a dict, and otherwise whose
`itemmarket`/`item` members unwrap to dicts and whose `listings` member
unwraps to an array of dicts. -/
def bodySafe (d : JVal) : Bool :=
  match d with
  | .obj kvs =>
    match jlookup kvs "error" with
    | some e => isObjB e
    | none =>
      match imOf kvs with
      | .obj ikvs =>
        isObjB (itemOf ikvs) &&
        (match listingsOf ikvs with
         | .arr ls => ls.all isObjB
         | _ => false)
      | _ => false
  | _ => false

/-- A network attempt whose body (if any) is well formed. -/
def respSafe : AttemptOutcome → Bool
  | .exn _ => true
  | .resp _ d => bodySafe d

/-- The `(price, amount)` slot extracted from one listing dict. -/
def jget (l : JVal) (k : String) : JVal :=
  match l with
  | .obj kvs => (jlookup kvs k).getD .null
  | _ => .null

def slotOf (l : JVal) : JVal × JVal := (jget l "price", jget l "amount")

end TMarket

namespace TMarket

/-! ## Supporting lemmas for the fetcher claims -/

theorem pyGet_pyOr_obj (kvs : List (String × JVal)) (k : String) (dflt : JVal) :
    pyGet (pyOr (.obj kvs) (.obj [])) k dflt = .ok ((jlookup kvs k).getD dflt) := by
  cases kvs <;> rfl

theorem listingSlots_shape (ls : List JVal) (out : List (JVal × JVal))
    (h : listingSlots ls = .ok out) : out = ls.map slotOf := by
  induction ls generalizing out with
  | nil => simpa [listingSlots] using h.symm
  | cons l rest ih =>
    cases l <;> simp [listingSlots, pyGet, bind, Except.bind] at h
    case obj kvs =>
      cases hrest : listingSlots rest with
      | error e => rw [hrest] at h; simp at h
      | ok out2 =>
        rw [hrest] at h
        simp only [] at h
        cases h
        simp [List.map_cons, slotOf, jget, ih out2 hrest]

theorem listingSlots_ok (ls : List JVal) (h : ∀ l ∈ ls, isObjB l = true) :
    listingSlots ls = .ok (ls.map slotOf) := by
  induction ls with
  | nil => rfl
  | cons l rest ih =>
    have hl := h l (by simp)
    cases l <;> simp [isObjB] at hl
    simp [listingSlots, pyGet, bind, Except.bind, ih (fun x hx => h x (by simp [hx])),
      slotOf, jget]

theorem successPath_ok (kvs : List (String × JVal)) (i q : Int)
    (hd : bodySafe (.obj kvs) = true) (hne : hasErrorKey (.obj kvs) = false) :
    ∃ r, successPath (.obj kvs) i q = .ok r := by
  have herr : jlookup kvs "error" = none := by
    simpa [hasErrorKey, Option.isSome_iff_exists] using hne
  rw [bodySafe, herr] at hd
  cases him : imOf kvs with
  | obj ikvs =>
    rw [him] at hd
    simp only [Bool.and_eq_true] at hd
    obtain ⟨hitem, hlist⟩ := hd
    cases hl : listingsOf ikvs with
    | arr ls =>
      rw [hl] at hlist
      simp only [List.all_eq_true] at hlist
      cases hio : itemOf ikvs with
      | obj itkvs =>
        simp only [successPath, bind, Except.bind, pyGet_pyOr_obj]
        rw [show pyOr ((jlookup kvs "itemmarket").getD (.obj [])) (.obj []) = imOf kvs from rfl,
          him]
        rw [show pyGet (.obj ikvs) "item" (.obj []) = .ok ((jlookup ikvs "item").getD (.obj []))
            from rfl]
        simp only []
        rw [show pyOr ((jlookup ikvs "item").getD (.obj [])) (.obj []) = itemOf ikvs from rfl,
          hio]
        rw [show pyGet (.obj ikvs) "listings" (.arr [])
            = .ok ((jlookup ikvs "listings").getD (.arr [])) from rfl]
        simp only []
        rw [show pyOr ((jlookup ikvs "listings").getD (.arr [])) (.arr []) = listingsOf ikvs
            from rfl, hl]
        simp only [pyGet]
        rw [listingSlots_ok (ls.take (min ls.length 100))
          (fun l hm => hlist l (List.mem_of_mem_take hm))]
        exact ⟨_, rfl⟩
      | _ =>
        rw [hio] at hitem; simp [isObjB] at hitem
    | _ => (rw [hl] at hlist; simp at hlist)
  | _ => (rw [him] at hd; simp at hd)

end TMarket

namespace TMarket

/-! ## Claim C1 -/

/-- C1: the spec's scenario — dictionary `{"Xanax": 206}`, input
`"Xanax\nx5\nXanax\nx3\nGhost Item\nx2"` — claims
`matched = [(Xanax, 206, 8)]` and `unmatched = [("Ghost Item", 2)]`.
The code actually yields `matched = [(Xanax, 206, 7)]` and `unmatched = []`:
"Ghost Item" is not a valid dictionary name, so it never starts a block and
is silently ignored, and the following standalone "x2" line overwrites the
still-open second Xanax block's quantity (3 → 2), giving 5 + 2 = 7. -/
theorem C1_scenario_behavior :
    match_inventory "Xanax\nx5\nXanax\nx3\nGhost Item\nx2" [("Xanax", 206)] =
      ([⟨"Xanax", 206, 7⟩], []) ∧
    parse_add_listings_text "Xanax\nx5\nXanax\nx3\nGhost Item\nx2" ["Xanax"] =
      [("Xanax", 5, false), ("Xanax", 2, false)] :=
  ⟨rfl, rfl⟩

/-! ## Claim C2 -/

/-- C2 counterexample: a transport exception does NOT lead to Backoff and a
retry cycle.  With every attempt raising, `fetch_100` returns the terminal
ErrorRow `"API error -1: boom"` immediately after the first attempt: no
sleep occurs and only one token is consumed. -/
theorem C2_counterexample :
    fetch_100 (fun _ => .exn "boom") 1 1 =
      ⟨.ok (.error 1 1 "API error -1: boom"), [], 1⟩ := rfl

/-- C2 (amended): a transport exception is folded into the error-code
classification with sentinel status `None` and sentinel code `-1`; since
`-1 ∉ {2, 0, 10}` and `None` is not a retryable HTTP status, the
classification is terminal: the attempt yields an immediate terminal
ErrorRow `"API error -1: <message>"` — not Backoff. -/
theorem C2_amended_transport_exception_fatal (i q : Int) (msg : String) (mode : Nat) :
    attemptStatus (.exn msg) = none ∧
    attemptData (.exn msg) =
      .obj [("error", .obj [("code", .int (-1)), ("error", .str msg)])] ∧
    classify (attemptStatus (.exn msg)) (attemptData (.exn msg)) mode =
      .fatal ("API error -1: " ++ msg) ∧
    fetch_100 (fun _ => .exn msg) i q =
      ⟨.ok (.error i q ("API error -1: " ++ msg)), [], 1⟩ :=
  ⟨rfl, rfl, rfl, rfl⟩

/-! ## Claim C3 -/

/-- C3 counterexample: the claim says a transport status of 503 triggers
Backoff and a retry "regardless of the shape of the response body".  But a
503 response whose body is `{}` (no `"error"` key) goes down the success
path: `fetch_100` returns a MarketRow immediately, with no sleep and a
single attempt. -/
theorem C3_counterexample :
    fetch_100 (fun _ => .resp 503 (.obj [])) 7 2 =
      ⟨.ok (.market ⟨.int 7, .null, .null, .null, 2,
        List.replicate 100 (.null, .null)⟩), [], 1⟩ := rfl

/-- C3 (amended): the retryable HTTP statuses 429/500/502/503/504 cause a
transition to Backoff only when the body is a dict with an `"error"` member
that is itself a dict and whose code does not trigger the mode-advance rule
(`code == 2 and mode != 3`, which is checked first).  In that situation they
are treated identically to the transient codes 0/10: the classification is
`backoff`, and the cycle is abandoned — the remaining auth modes are
discarded, one sleep of the current backoff is recorded and the backoff is
grown by 1.6 before the cycle ends. -/
theorem C3_amended_retryable_status_backoff (oracle : Nat → AttemptOutcome)
    (i q s : Int) (kvs ekvs : List (String × JVal)) (mode : Nat)
    (rest : List Nat) (t : Nat) (b : ℚ)
    (hor : oracle t = .resp s (.obj kvs))
    (herr : jlookup kvs "error" = some (.obj ekvs))
    (hadv : (jeqInt ((jlookup ekvs "code").getD .null) 2 && mode != 3) = false)
    (hs : s = 429 ∨ s = 500 ∨ s = 502 ∨ s = 503 ∨ s = 504) :
    classify (some s) (.obj kvs) mode = .backoff ∧
    innerCycle oracle i q (mode :: rest) t b = .broke [b] (t + 1) (b * (8 / 5)) := by
  have hret : retryableStatus (some s) = true := by
    rcases hs with h | h | h | h | h <;> simp [retryableStatus, h]
  have hcl : classify (some s) (.obj kvs) mode = .backoff := by
    simp [classify, herr, hadv, hret]
  refine ⟨hcl, ?_⟩
  simp [innerCycle, hor, attemptStatus, attemptData, hcl]

/-- Witness for C3 (amended): a 503 response carrying error code 5 at mode 1
backs off. -/
theorem C3_amended_witness :
    classify (some 503) (.obj [("error", .obj [("code", .int 5)])]) 1 = .backoff ∧
    innerCycle (fun _ => .resp 503 (.obj [("error", .obj [("code", .int 5)])]))
      7 2 [1, 2, 3] 0 (4 / 5) = .broke [4 / 5] (0 + 1) ((4 / 5) * (8 / 5)) :=
  C3_amended_retryable_status_backoff _ 7 2 503 _ _ 1 [2, 3] 0 (4 / 5)
    rfl rfl (by decide) (.inr (.inr (.inr (.inl rfl))))

end TMarket

namespace TMarket

/-! ## Claim C4 -/

/-- An upstream that always reports the transient error code 0. -/
def transientOracle : Nat → AttemptOutcome :=
  fun _ => .resp 200 (.obj [("error", .obj [("code", .int 0), ("error", .str "busy")])])

/-- C4 counterexample: with every attempt transient, `fetch_100` makes three
attempts (three Backoff occurrences) but sleeps SIX times, not three: each
occurrence sleeps once in the transient branch (which also multiplies the
backoff by 1.6) and then — because the `break` only exits the mode loop —
falls into the end-of-cycle `time.sleep(backoff)` / `backoff *= 1.6` at
lines 144–145, sleeping and growing again.  The durations are six
consecutive powers 0.8·1.6^k, k = 0..5, not the claimed one sleep of
0.8·1.6^(k-1) per occurrence. -/
theorem C4_counterexample :
    (fetch_100 transientOracle 5 2).tokens = 3 ∧
    (fetch_100 transientOracle 5 2).result = .ok (.error 5 2 "Exhausted retries") ∧
    (fetch_100 transientOracle 5 2).sleeps =
      [4 / 5, 32 / 25, 256 / 125, 2048 / 625, 16384 / 3125, 131072 / 15625] := by
  refine ⟨rfl, rfl, ?_⟩
  simp [fetch_100, RETRIES, fetchLoop, innerCycle, transientOracle, classify,
    attemptData, attemptStatus, jlookup, jeqInt, retryableStatus]
  norm_num

/-- C4 (amended): each Backoff occurrence sleeps twice — once for the current
backoff duration `b` (transient branch, line 110) and once for `1.6·b`
(end-of-cycle sleep, line 144) — and multiplies the backoff duration by 1.6
twice, restarting the cycle at auth mode 1; so a run of `c` all-transient
cycles starting from backoff `b` sleeps for `b·1.6^k`, k = 0..2c-1, ends
with backoff `b·1.6^(2c)`, consumes one token per cycle and returns the
"Exhausted retries" ErrorRow. -/
theorem C4_amended_double_backoff (i q : Int) (c : Nat) :
    ∀ (t : Nat) (b : ℚ),
      fetchLoop transientOracle i q c t b =
        ⟨.ok (.error i q "Exhausted retries"),
          (List.range (2 * c)).map (fun k => b * (8 / 5) ^ k), t + c⟩ := by
  induction c with
  | zero => intro t b; simp [fetchLoop]
  | succ c ih =>
    intro t b
    have hcyc : innerCycle transientOracle i q [1, 2, 3] t b =
        .broke [b] (t + 1) (b * (8 / 5)) := by
      simp [innerCycle, transientOracle, classify, attemptData, attemptStatus,
        jlookup, jeqInt]
    have hrange : (List.range (2 * (c + 1))).map (fun k => b * (8 / 5) ^ k) =
        b :: (b * (8 / 5)) ::
          (List.range (2 * c)).map (fun k => b * (8 / 5) * (8 / 5) * (8 / 5) ^ k) := by
      have h2 : 2 * (c + 1) = (2 * c + 1) + 1 := by ring
      rw [h2, List.range_succ_eq_map, List.range_succ_eq_map]
      simp only [List.map_cons, List.map_map]
      refine congrArg₂ _ (by norm_num) (congrArg₂ _ (by norm_num) ?_)
      refine List.map_congr_left (fun k _ => ?_)
      simp only [Function.comp_apply, Nat.succ_eq_add_one]
      ring
    simp only [fetchLoop, hcyc, ih (t + 1) (b * (8 / 5) * (8 / 5))]
    rw [hrange, show t + 1 + c = t + (c + 1) from by omega]
    simp only [List.singleton_append]

/-! ## Claim C5 -/

/-- C5 counterexample: the claim says `fetch_100` never raises, including on
non-object JSON bodies.  But a truthy non-dict body — here the JSON array
`[1]` with HTTP 200 — reaches `(data or {}).get("itemmarket", {})` on the
success path and raises `AttributeError` on the first attempt. -/
theorem C5_counterexample :
    fetch_100 (fun _ => .resp 200 (.arr [.int 1])) 1 1 =
      ⟨.error .attributeError, [], 1⟩ := rfl

theorem classify_attempt_safe (a : AttemptOutcome) (mode : Nat) (i q : Int)
    (h : respSafe a = true) :
    (∀ e, classify (attemptStatus a) (attemptData a) mode ≠ .crash e) ∧
    (classify (attemptStatus a) (attemptData a) mode = .success →
      ∃ r, successPath (attemptData a) i q = .ok r) := by
  cases a with
  | exn m =>
    simp [classify, attemptStatus, attemptData, jlookup, jeqInt, retryableStatus]
  | resp s d =>
    simp only [respSafe] at h
    cases d with
    | obj kvs =>
      cases herr : jlookup kvs "error" with
      | some e =>
        have he : isObjB e = true := by
          rw [bodySafe, herr] at h; exact h
        cases e <;> simp [isObjB] at he
        constructor
        · intro e2
          simp only [classify, attemptStatus, attemptData, herr]
          split
          · simp
          split <;> simp
        · intro hsucc
          simp only [classify, attemptStatus, attemptData, herr] at hsucc
          split at hsucc
          · simp at hsucc
          split at hsucc <;> simp at hsucc
      | none =>
        refine ⟨?_, fun _ => successPath_ok kvs i q h ?_⟩
        · intro e2
          simp [classify, attemptStatus, attemptData, herr]
        · simp [hasErrorKey, herr]
    | null => simp [bodySafe] at h
    | bool b => simp [bodySafe] at h
    | int n => simp [bodySafe] at h
    | str s2 => simp [bodySafe] at h
    | arr xs => simp [bodySafe] at h

theorem innerCycle_safe (oracle : Nat → AttemptOutcome) (i q : Int)
    (h : ∀ n, respSafe (oracle n) = true) :
    ∀ (modes : List Nat) (t : Nat) (b : ℚ) (res : Except PyErr Row)
      (s : List ℚ) (t2 : Nat),
      innerCycle oracle i q modes t b = .done res s t2 → ∃ row, res = .ok row := by
  intro modes
  induction modes with
  | nil =>
    intro t b res s t2 heq
    simp [innerCycle] at heq
  | cons m rest ih =>
    intro t b res s t2 heq
    rw [innerCycle] at heq
    cases hcl : classify (attemptStatus (oracle t)) (attemptData (oracle t)) m with
    | advance =>
      rw [hcl] at heq
      exact ih (t + 1) b res s t2 heq
    | backoff => rw [hcl] at heq; simp at heq
    | fatal msg =>
      rw [hcl] at heq
      simp only [CycleOut.done.injEq] at heq
      exact ⟨_, heq.1.symm⟩
    | success =>
      rw [hcl] at heq
      simp only [CycleOut.done.injEq] at heq
      obtain ⟨r, hr⟩ := (classify_attempt_safe (oracle t) m i q (h t)).2 hcl
      exact ⟨.market r, by rw [← heq.1, hr]; rfl⟩
    | crash e =>
      exact absurd hcl ((classify_attempt_safe (oracle t) m i q (h t)).1 e)

theorem fetchLoop_safe (oracle : Nat → AttemptOutcome) (i q : Int)
    (h : ∀ n, respSafe (oracle n) = true) :
    ∀ (c t : Nat) (b : ℚ), ∃ row, (fetchLoop oracle i q c t b).result = .ok row := by
  intro c
  induction c with
  | zero => exact fun t b => ⟨_, rfl⟩
  | succ c ih =>
    intro t b
    cases hcyc : innerCycle oracle i q [1, 2, 3] t b with
    | done res s t2 =>
      obtain ⟨row, hrow⟩ := innerCycle_safe oracle i q h [1, 2, 3] t b res s t2 hcyc
      exact ⟨row, by simp [fetchLoop, hcyc, hrow]⟩
    | broke s t2 b2 =>
      obtain ⟨row, hrow⟩ := ih t2 (b2 * (8 / 5))
      exact ⟨row, by simp [fetchLoop, hcyc, hrow]⟩

/-- C5 (amended): provided every response body is a dict whose `"error"`
member (when present) is itself a dict, and whose success-side members
unwrap to the expected shapes (`itemmarket`/`item` dicts, `listings` an
array of dicts), `fetch_100` never raises: it returns exactly one `Row`
(one of the two shapes `Row.market` / `Row.error`, these being the only
constructors), so a failing item cannot abort the batch.  Transport
exceptions are always safe (their sentinel body is well formed); the claim
fails only for truthy non-dict bodies or malformed members, as the
counterexample shows. -/
theorem C5_amended_total (oracle : Nat → AttemptOutcome) (i q : Int)
    (h : ∀ n, respSafe (oracle n) = true) :
    ∃ row : Row, (fetch_100 oracle i q).result = .ok row :=
  fetchLoop_safe oracle i q h RETRIES 0 (4 / 5)

/-- Witness for C5 (amended): an upstream always answering `{}` lets
`fetch_100` return a row. -/
theorem C5_amended_witness :
    ∃ row : Row, (fetch_100 (fun _ => .resp 200 (.obj [])) 1 1).result = .ok row :=
  C5_amended_total _ 1 1 (fun _ => rfl)

end TMarket

namespace TMarket

/-! ## Claim C7 -/

theorem except_bind_ok {α β : Type} (x : Except PyErr α) (f : α → Except PyErr β) (b : β)
    (h : (x >>= f) = .ok b) : ∃ a, x = .ok a ∧ f a = .ok b := by
  cases x with
  | error e => simp [Bind.bind, Except.bind] at h
  | ok a => exact ⟨a, rfl, by simpa [Bind.bind, Except.bind] using h⟩

/-- The listings array the success path reads from a response body:
`((data or {}).get("itemmarket", {}) or {}).get("listings", []) or []`,
as a list when that value is an array — the only shape on which the row
build succeeds; the `[]` fallback covers the shapes on which the success
path raises instead of building a row. -/
def listingsOfBody (d : JVal) : List JVal :=
  match pyGet (pyOr d (.obj [])) "itemmarket" (.obj []) with
  | .error _ => []
  | .ok imv =>
    match pyGet (pyOr imv (.obj [])) "listings" (.arr []) with
    | .error _ => []
    | .ok lsv =>
      match pyOr lsv (.arr []) with
      | .arr xs => xs
      | _ => []

theorem successPath_slots (d : JVal) (i q : Int) (r : MarketRow)
    (h : successPath d i q = .ok r) :
    r.slots.length = 100 ∧
    r.slots = ((listingsOfBody d).take (min (listingsOfBody d).length 100)).map slotOf ++
      List.replicate (100 - min (listingsOfBody d).length 100) (.null, .null) := by
  simp only [successPath] at h
  obtain ⟨imv, h1, h⟩ := except_bind_ok _ _ _ h
  obtain ⟨itv, h2, h⟩ := except_bind_ok _ _ _ h
  obtain ⟨lsv, h3, h⟩ := except_bind_ok _ _ _ h
  obtain ⟨n, h4, h⟩ := except_bind_ok _ _ _ h
  obtain ⟨iid, h5, h⟩ := except_bind_ok _ _ _ h
  obtain ⟨iname, h6, h⟩ := except_bind_ok _ _ _ h
  obtain ⟨itype, h7, h⟩ := except_bind_ok _ _ _ h
  obtain ⟨iavg, h8, h⟩ := except_bind_ok _ _ _ h
  obtain ⟨filled, h9, h⟩ := except_bind_ok _ _ _ h
  simp only [pure, Except.pure, Except.ok.injEq] at h
  subst h
  cases hls : pyOr lsv (.arr []) with
  | arr xs =>
    have hlb : listingsOfBody d = xs := by
      simp only [listingsOfBody, h1, h3, hls]
    rw [hls] at h4 h9
    simp only [Except.ok.injEq] at h4
    subst h4
    have hfill := listingSlots_shape _ _ h9
    subst hfill
    rw [hlb]
    refine ⟨?_, rfl⟩
    simp only [List.length_append, List.length_map, List.length_take,
      List.length_replicate]
    omega
  | null => rw [hls] at h4; simp at h4
  | bool b2 => rw [hls] at h4; simp at h4
  | int n2 => rw [hls] at h4; simp at h4
  | str s2 => rw [hls] at h9; simp at h9
  | obj kvs2 => rw [hls] at h9; simp at h9

theorem innerCycle_market (oracle : Nat → AttemptOutcome) (i q : Int) :
    ∀ (modes : List Nat) (t : Nat) (b : ℚ) (r : MarketRow) (s : List ℚ) (t2 : Nat),
      innerCycle oracle i q modes t b = .done (.ok (.market r)) s t2 →
      ∃ (t3 m : Nat),
        classify (attemptStatus (oracle t3)) (attemptData (oracle t3)) m = .success ∧
        successPath (attemptData (oracle t3)) i q = .ok r := by
  intro modes
  induction modes with
  | nil => intro t b r s t2 heq; simp [innerCycle] at heq
  | cons m rest ih =>
    intro t b r s t2 heq
    rw [innerCycle] at heq
    cases hcl : classify (attemptStatus (oracle t)) (attemptData (oracle t)) m with
    | advance => rw [hcl] at heq; exact ih (t + 1) b r s t2 heq
    | backoff => rw [hcl] at heq; simp at heq
    | fatal msg => rw [hcl] at heq; simp at heq
    | crash e => rw [hcl] at heq; simp at heq
    | success =>
      rw [hcl] at heq
      simp only [CycleOut.done.injEq] at heq
      obtain ⟨hmap, -, -⟩ := heq
      cases hsp : successPath (attemptData (oracle t)) i q with
      | error e => rw [hsp] at hmap; simp [Except.map] at hmap
      | ok r2 =>
        rw [hsp] at hmap
        simp only [Except.map, Except.ok.injEq, Row.market.injEq] at hmap
        exact ⟨t, m, hcl, hmap ▸ hsp⟩

theorem fetchLoop_market (oracle : Nat → AttemptOutcome) (i q : Int) :
    ∀ (c t : Nat) (b : ℚ) (r : MarketRow),
      (fetchLoop oracle i q c t b).result = .ok (.market r) →
      ∃ (t3 m : Nat),
        classify (attemptStatus (oracle t3)) (attemptData (oracle t3)) m = .success ∧
        successPath (attemptData (oracle t3)) i q = .ok r := by
  intro c
  induction c with
  | zero => intro t b r h; simp [fetchLoop] at h
  | succ c ih =>
    intro t b r h
    rw [fetchLoop] at h
    cases hcyc : innerCycle oracle i q [1, 2, 3] t b with
    | done res s t2 =>
      rw [hcyc] at h
      simp only [] at h
      rw [h] at hcyc
      exact innerCycle_market oracle i q [1, 2, 3] t b r s t2 hcyc
    | broke s t2 b2 =>
      rw [hcyc] at h
      simp only [] at h
      exact ih t2 (b2 * (8 / 5)) r h

/-- C7: every successful outcome of `fetch_100` (a `Row.market`) is built by
the success path from the body of the attempt the state machine succeeded
on, and has exactly 100 slot pairs — hence exactly 100 price slots and 100
amount slots: for that body's listings array of length `L`, slots
`1..min(L, 100)` hold the first `min(L, 100)` listings' `(price, amount)`
values in the order returned by the upstream API, and slots
`min(L, 100)+1..100` are null/null. -/
theorem C7_slots (oracle : Nat → AttemptOutcome) (i q : Int) (r : MarketRow)
    (h : (fetch_100 oracle i q).result = .ok (.market r)) :
    r.slots.length = 100 ∧
    ∃ (t m : Nat),
      classify (attemptStatus (oracle t)) (attemptData (oracle t)) m = .success ∧
      successPath (attemptData (oracle t)) i q = .ok r ∧
      r.slots =
        ((listingsOfBody (attemptData (oracle t))).take
            (min (listingsOfBody (attemptData (oracle t))).length 100)).map slotOf ++
          List.replicate
            (100 - min (listingsOfBody (attemptData (oracle t))).length 100)
            (.null, .null) := by
  obtain ⟨t, m, hcl, hsp⟩ := fetchLoop_market oracle i q RETRIES 0 (4 / 5) r h
  obtain ⟨hlen, hshape⟩ := successPath_slots _ i q r hsp
  exact ⟨hlen, t, m, hcl, hsp, hshape⟩

/-- A concrete well-formed success body with two listings. -/
def listingBody : JVal :=
  .obj [("itemmarket", .obj [
    ("item", .obj [("id", .int 206), ("name", .str "Xanax"),
                   ("type", .str "Drug"), ("average_price", .int 830000)]),
    ("listings", .arr [
      .obj [("price", .int 820000), ("amount", .int 3)],
      .obj [("price", .int 825000), ("amount", .int 1)]])])]

/-- The row `fetch_100` builds from `listingBody` for item 206, quantity 4. -/
def c7row : MarketRow :=
  ⟨.int 206, .str "Xanax", .str "Drug", .int 830000, 4,
    [(.int 820000, .int 3), (.int 825000, .int 1)] ++
      List.replicate 98 (.null, .null)⟩

/-- Witness for C7 at a concrete two-listing response (the oracle constantly
answers `listingBody`, so the succeeding attempt's body is `listingBody`). -/
theorem C7_slots_witness :
    c7row.slots.length = 100 ∧
    ∃ (t m : Nat),
      classify (attemptStatus (AttemptOutcome.resp 200 listingBody))
        (attemptData (AttemptOutcome.resp 200 listingBody)) m = .success ∧
      successPath (attemptData (AttemptOutcome.resp 200 listingBody)) 206 4
        = .ok c7row ∧
      c7row.slots =
        ((listingsOfBody (attemptData (AttemptOutcome.resp 200 listingBody))).take
            (min (listingsOfBody
              (attemptData (AttemptOutcome.resp 200 listingBody))).length 100)).map
          slotOf ++
          List.replicate
            (100 - min (listingsOfBody
              (attemptData (AttemptOutcome.resp 200 listingBody))).length 100)
            (.null, .null) :=
  C7_slots (fun _ => .resp 200 listingBody) 206 4 c7row rfl

end TMarket

namespace TMarket

/-! ## Claim C8 -/

theorem classify_no_error_success (s : Option Int) (d : JVal) (m : Nat)
    (h : hasErrorKey d = false) : classify s d m = .success := by
  cases d with
  | obj kvs =>
    cases hl : jlookup kvs "error" with
    | some v => rw [hasErrorKey, hl] at h; simp at h
    | none => simp [classify, hl]
  | null => rfl
  | bool b => rfl
  | int n => rfl
  | str s2 => rfl
  | arr xs => rfl

/-- C8: if the upstream reports error code 2 for auth modes 1 and 2 and a
response without an error object for mode 3, `fetch_100` advances from mode
k to mode k+1 on code 2 with k < 3 (no backoff sleep anywhere: the sleep
trace is empty), returns the MarketRow built by the success path from mode
3's body, and consumes exactly 3 rate-limiter tokens — one per attempt — in
that single cycle. -/
theorem C8_mode_fallback (oracle : Nat → AttemptOutcome) (i q s0 s1 s2 : Int)
    (k0 e0 k1 e1 : List (String × JVal)) (sbody : JVal) (r : MarketRow)
    (h0 : oracle 0 = .resp s0 (.obj k0))
    (he0 : jlookup k0 "error" = some (.obj e0))
    (hc0 : jeqInt ((jlookup e0 "code").getD .null) 2 = true)
    (h1 : oracle 1 = .resp s1 (.obj k1))
    (he1 : jlookup k1 "error" = some (.obj e1))
    (hc1 : jeqInt ((jlookup e1 "code").getD .null) 2 = true)
    (h2 : oracle 2 = .resp s2 sbody)
    (hne : hasErrorKey sbody = false)
    (hs : successPath sbody i q = .ok r) :
    fetch_100 oracle i q = ⟨.ok (.market r), [], 3⟩ := by
  have hcl0 : classify (some s0) (.obj k0) 1 = .advance := by
    simp [classify, he0, hc0]
  have hcl1 : classify (some s1) (.obj k1) 2 = .advance := by
    simp [classify, he1, hc1]
  have hcl2 : classify (some s2) sbody 3 = .success :=
    classify_no_error_success _ _ _ hne
  simp only [fetch_100, RETRIES, fetchLoop, innerCycle, h0, h1, h2, attemptStatus,
    attemptData, hcl0, hcl1, hcl2, hs, Except.map]

/-- The error body `{"error": {"code": 2, "error": "wrong auth"}}`. -/
def err2Body : JVal :=
  .obj [("error", .obj [("code", .int 2), ("error", .str "wrong auth")])]

/-- An upstream answering code 2 on the first two attempts, then a
well-formed success body. -/
def c8oracle : Nat → AttemptOutcome :=
  fun n => if n ≤ 1 then .resp 200 err2Body else .resp 200 listingBody

/-- Witness for C8 at a concrete mock upstream. -/
theorem C8_mode_fallback_witness :
    fetch_100 c8oracle 206 4 = ⟨.ok (.market c7row), [], 3⟩ :=
  C8_mode_fallback c8oracle 206 4 200 200 200 _ _ _ _ listingBody c7row
    rfl rfl rfl rfl rfl rfl rfl rfl rfl

end TMarket

namespace TMarket

/-! ## Claim C9 -/

theorem tryTake_inv (b : TokenBucket) (now n : ℚ)
    (h0 : 0 ≤ b.tokens) (hc : b.tokens ≤ b.capacity)
    (hr : 0 ≤ b.rate_per_sec) (hl : b.last ≤ now) (hn : 0 ≤ n) :
    0 ≤ (b.tryTake now n).1.tokens ∧ (b.tryTake now n).1.tokens ≤ b.capacity ∧
    (b.tryTake now n).1.capacity = b.capacity ∧
    (b.tryTake now n).1.rate_per_sec = b.rate_per_sec ∧
    (b.tryTake now n).1.last = now := by
  have hcap : 0 ≤ b.capacity := le_trans h0 hc
  have hre : 0 ≤ b.tokens + (now - b.last) * b.rate_per_sec := by
    have hm : 0 ≤ (now - b.last) * b.rate_per_sec := mul_nonneg (by linarith) hr
    linarith
  have hmin0 : 0 ≤ min b.capacity (b.tokens + (now - b.last) * b.rate_per_sec) :=
    le_min hcap hre
  have hminc : min b.capacity (b.tokens + (now - b.last) * b.rate_per_sec) ≤ b.capacity :=
    min_le_left _ _
  by_cases hif : n ≤ min b.capacity (b.tokens + (now - b.last) * b.rate_per_sec)
  · have ht : b.tryTake now n =
        ({ b with
            tokens := min b.capacity (b.tokens + (now - b.last) * b.rate_per_sec) - n,
            last := now }, true) := by
      simp [TokenBucket.tryTake, TokenBucket.refill, hif]
    rw [ht]
    refine ⟨?_, ?_, rfl, rfl, rfl⟩
    · show 0 ≤ min b.capacity (b.tokens + (now - b.last) * b.rate_per_sec) - n
      linarith
    · show min b.capacity (b.tokens + (now - b.last) * b.rate_per_sec) - n ≤ b.capacity
      linarith
  · have ht : b.tryTake now n =
        ({ b with
            tokens := min b.capacity (b.tokens + (now - b.last) * b.rate_per_sec),
            last := now }, false) := by
      simp [TokenBucket.tryTake, TokenBucket.refill, hif]
    rw [ht]
    exact ⟨hmin0, hminc, rfl, rfl, rfl⟩

theorem take_inv (n : ℚ) (hn : 0 ≤ n) :
    ∀ (times : List ℚ) (b : TokenBucket),
      0 ≤ b.tokens → b.tokens ≤ b.capacity → 0 ≤ b.rate_per_sec →
      List.Chain (· ≤ ·) b.last times →
      0 ≤ (b.take times n).1.tokens ∧ (b.take times n).1.tokens ≤ b.capacity ∧
      (b.take times n).1.capacity = b.capacity := by
  intro times
  induction times with
  | nil => intro b h0 hc hr _; exact ⟨h0, hc, rfl⟩
  | cons now rest ih =>
    intro b h0 hc hr hch
    cases hch with
    | cons hle hch =>
      obtain ⟨t0, t1, t2, t3, t4⟩ := tryTake_inv b now n h0 hc hr hle hn
      cases htt : b.tryTake now n with
      | mk b2 flag =>
        rw [htt] at t0 t1 t2 t3 t4
        have hstep : b.take (now :: rest) n =
            (if flag then (b2, true) else b2.take rest n) := by
          show (if (b.tryTake now n).2 then ((b.tryTake now n).1, true)
                else (b.tryTake now n).1.take rest n) = _
          rw [htt]
        rw [hstep]
        cases flag
        · have hch2 : List.Chain (· ≤ ·) b2.last rest := by rw [t4]; exact hch
          have hrec := ih b2 t0 (t2 ▸ t1) (t3 ▸ hr) hch2
          simp only [if_neg Bool.false_ne_true]
          exact ⟨hrec.1, t2 ▸ hrec.2.1, t2 ▸ hrec.2.2⟩
        · exact ⟨t0, t1, t2⟩

/-- C9: every execution of the critical section of `take(n)` first refills
`tokens` to `min(capacity, tokens + elapsed_seconds · rate_per_sec)`, debits
`n` exactly when at least `n` refilled tokens are available (and leaves the
bucket untouched apart from the refill otherwise); under monotone clock
readings the token count stays within `[0, capacity]` after every critical
section and throughout the blocking `take` loop; and a bucket constructed
without an explicit capacity has `capacity = rate_per_min`,
`rate_per_sec = rate_per_min / 60`, and starts full. -/
theorem C9_token_bucket (b : TokenBucket) (now n rpm t0 : ℚ)
    (h0 : 0 ≤ b.tokens) (hc : b.tokens ≤ b.capacity)
    (hr : 0 ≤ b.rate_per_sec) (hl : b.last ≤ now) (hn : 0 ≤ n) :
    ((b.refill now).tokens
        = min b.capacity (b.tokens + (now - b.last) * b.rate_per_sec)) ∧
    (n ≤ (b.refill now).tokens →
        b.tryTake now n
          = ({ b.refill now with tokens := (b.refill now).tokens - n }, true)) ∧
    (¬ n ≤ (b.refill now).tokens → b.tryTake now n = (b.refill now, false)) ∧
    (0 ≤ (b.tryTake now n).1.tokens ∧ (b.tryTake now n).1.tokens ≤ b.capacity) ∧
    (∀ times : List ℚ, List.Chain (· ≤ ·) b.last times →
        0 ≤ (b.take times n).1.tokens ∧ (b.take times n).1.tokens ≤ b.capacity) ∧
    ((TokenBucket.init rpm none t0).capacity = rpm ∧
     (TokenBucket.init rpm none t0).rate_per_sec = rpm / 60 ∧
     (TokenBucket.init rpm none t0).tokens = rpm) := by
  obtain ⟨t0a, t1a, -, -, -⟩ := tryTake_inv b now n h0 hc hr hl hn
  refine ⟨rfl, ?_, ?_, ⟨t0a, t1a⟩, ?_, rfl, rfl, rfl⟩
  · intro hif; simp [TokenBucket.tryTake, hif]
  · intro hif; simp [TokenBucket.tryTake, hif]
  · intro times hch
    obtain ⟨u0, u1, -⟩ := take_inv n hn times b h0 hc hr hch
    exact ⟨u0, u1⟩

/-- Witness for C9: a fresh bucket at 90/min, one critical section one
second later. -/
theorem C9_token_bucket_witness :
    0 ≤ ((TokenBucket.init 90 none 0).tryTake 1 1).1.tokens ∧
    ((TokenBucket.init 90 none 0).tryTake 1 1).1.tokens
      ≤ (TokenBucket.init 90 none 0).capacity :=
  (C9_token_bucket (TokenBucket.init 90 none 0) 1 1 90 0
    (by norm_num [TokenBucket.init]) (by norm_num [TokenBucket.init])
    (by norm_num [TokenBucket.init]) (by norm_num [TokenBucket.init])
    (by norm_num)).2.2.2.1

end TMarket

namespace TMarket

/-! ## Spec-side aggregation descriptions (for claims C6 and C10) -/

/-- A parsed entry counts towards item id `i`: not omitted and its name
resolves to `i`. -/
def relevant (dict : List (String × Int)) (i : Int) (e : Entry) : Bool :=
  !e.2.2 && decide (dlookup dict e.1 = some i)

/-- Total quantity of the entries counting towards `i`. -/
def sumQty (dict : List (String × Int)) (es : List Entry) (i : Int) : Nat :=
  ((es.filter (relevant dict i)).map (fun e => e.2.1)).sum

/-- First entry counting towards `i` (whose name the result displays). -/
def firstHit (dict : List (String × Int)) (es : List Entry) (i : Int) : Option Entry :=
  (es.filter (relevant dict i)).head?

/-- Lookup in the insertion-ordered `aggregated` association list. -/
def assocFind (a : List (Int × String × Nat)) (i : Int) : Option (String × Nat) :=
  (a.find? (fun x => decide (x.1 = i))).map (fun x => x.2)

def keysOf (a : List (Int × String × Nat)) : List Int := a.map (fun x => x.1)

/-- The unmatched output described entry-wise: one record per non-omitted
block whose name misses the dictionary, in parse order. -/
def unmSpec (dict : List (String × Int)) (es : List Entry) : List (String × Nat) :=
  (es.filter (fun e => !e.2.2 && (dlookup dict e.1).isNone)).map (fun e => (e.1, e.2.1))

/-! ### Association-list lemmas -/

theorem assocFind_nil (i : Int) : assocFind [] i = none := rfl

theorem assocFind_cons (x : Int × String × Nat) (a : List (Int × String × Nat)) (i : Int) :
    assocFind (x :: a) i = if x.1 = i then some x.2 else assocFind a i := by
  by_cases h : x.1 = i <;> simp [assocFind, List.find?, h]

theorem assocFind_cons3 (x1 : Int) (x2 : String) (x3 : Nat)
    (a : List (Int × String × Nat)) (i : Int) :
    assocFind ((x1, x2, x3) :: a) i = if x1 = i then some (x2, x3) else assocFind a i := by
  by_cases h : x1 = i <;> simp [assocFind_cons, h]

theorem assocFind_eq_none (a : List (Int × String × Nat)) (i : Int) :
    assocFind a i = none ↔ i ∉ keysOf a := by
  induction a with
  | nil => simp [assocFind, keysOf]
  | cons x a ih =>
    rw [assocFind_cons, show keysOf (x :: a) = x.1 :: keysOf a from rfl]
    by_cases h : x.1 = i
    · simp [h]
    · simp only [if_neg h, List.mem_cons, not_or, ih]
      constructor
      · exact fun hm => ⟨fun he => h he.symm, hm⟩
      · exact fun hm => hm.2

theorem assocFind_mem (a : List (Int × String × Nat)) (i : Int) (n : String) (q : Nat)
    (hnd : (keysOf a).Nodup) (h : (i, n, q) ∈ a) : assocFind a i = some (n, q) := by
  induction a with
  | nil => simp at h
  | cons x a ih =>
    rw [show keysOf (x :: a) = x.1 :: keysOf a from rfl] at hnd
    rcases List.mem_cons.mp h with heq | hmem
    · subst heq; simp [assocFind_cons]
    · rw [assocFind_cons]
      have hxi : x.1 ≠ i := by
        intro he
        exact (List.nodup_cons.mp hnd).1
          (he ▸ (List.mem_map.mpr ⟨(i, n, q), hmem, rfl⟩))
      rw [if_neg hxi]
      exact ih (List.nodup_cons.mp hnd).2 hmem

theorem mem_of_assocFind (a : List (Int × String × Nat)) (i : Int) (n : String) (q : Nat)
    (h : assocFind a i = some (n, q)) : (i, n, q) ∈ a := by
  induction a with
  | nil => simp [assocFind] at h
  | cons x a ih =>
    obtain ⟨x1, x2, x3⟩ := x
    rw [assocFind_cons3] at h
    by_cases hx : x1 = i
    · rw [if_pos hx] at h
      simp only [Option.some.injEq] at h
      exact List.mem_cons.mpr (Or.inl (by rw [hx, h]))
    · rw [if_neg hx] at h
      exact List.mem_cons_of_mem _ (ih h)

theorem assocFind_aggUpdate_ne (a : List (Int × String × Nat)) (i j : Int)
    (n : String) (q : Nat) (hne : i ≠ j) :
    assocFind (aggUpdate a j n q) i = assocFind a i := by
  induction a with
  | nil =>
    rw [show aggUpdate [] j n q = [(j, n, q)] from rfl, assocFind_cons3,
      if_neg (fun h => hne h.symm)]
  | cons x a ih =>
    obtain ⟨x1, x2, x3⟩ := x
    rw [aggUpdate]
    by_cases hx : x1 = j
    · have hxi : ¬ x1 = i := fun he => hne (by rw [← he]; exact hx)
      rw [if_pos hx, assocFind_cons3, assocFind_cons3, if_neg hxi, if_neg hxi]
    · rw [if_neg hx, assocFind_cons3, assocFind_cons3]
      by_cases hxi : x1 = i
      · simp [hxi]
      · simp only [if_neg hxi]
        exact ih

theorem aggUpdate_notfound (a : List (Int × String × Nat)) (j : Int) (n : String) (q : Nat)
    (h : assocFind a j = none) : aggUpdate a j n q = a ++ [(j, n, q)] := by
  induction a with
  | nil => rfl
  | cons x a ih =>
    rw [assocFind_cons] at h
    by_cases hx : x.1 = j
    · rw [if_pos hx] at h; simp at h
    · rw [if_neg hx] at h
      obtain ⟨x1, x2, x3⟩ := x
      rw [aggUpdate, if_neg hx, ih h]
      rfl

theorem assocFind_append_one (a : List (Int × String × Nat)) (j : Int) (n : String) (q : Nat)
    (h : assocFind a j = none) : assocFind (a ++ [(j, n, q)]) j = some (n, q) := by
  induction a with
  | nil => simp [assocFind_cons]
  | cons x a ih =>
    rw [assocFind_cons] at h
    by_cases hx : x.1 = j
    · rw [if_pos hx] at h; simp at h
    · rw [if_neg hx] at h
      rw [List.cons_append, assocFind_cons, if_neg hx]
      exact ih h

theorem aggUpdate_found (a : List (Int × String × Nat)) (j : Int) (n n0 : String)
    (q q0 : Nat) (h : assocFind a j = some (n0, q0)) :
    assocFind (aggUpdate a j n q) j = some (n0, q0 + q) := by
  induction a with
  | nil => simp [assocFind] at h
  | cons x a ih =>
    obtain ⟨x1, x2, x3⟩ := x
    rw [assocFind_cons3] at h
    by_cases hx : x1 = j
    · rw [if_pos hx] at h
      simp only [Option.some.injEq] at h
      have h1 : x2 = n0 := congrArg Prod.fst h
      have h2 : x3 = q0 := congrArg Prod.snd h
      rw [aggUpdate, if_pos hx, assocFind_cons3, if_pos hx, h1, h2]
    · rw [if_neg hx] at h
      rw [aggUpdate, if_neg hx, assocFind_cons3, if_neg hx]
      exact ih h

theorem keysOf_aggUpdate_found (a : List (Int × String × Nat)) (j : Int) (n : String)
    (q : Nat) (p : String × Nat) (h : assocFind a j = some p) :
    keysOf (aggUpdate a j n q) = keysOf a := by
  induction a with
  | nil => simp [assocFind] at h
  | cons x a ih =>
    obtain ⟨x1, x2, x3⟩ := x
    rw [assocFind_cons3] at h
    by_cases hx : x1 = j
    · rw [aggUpdate, if_pos hx]; rfl
    · rw [if_neg hx] at h
      rw [aggUpdate, if_neg hx, show keysOf ((x1, x2, x3) :: aggUpdate a j n q)
          = x1 :: keysOf (aggUpdate a j n q) from rfl, ih h]
      rfl

theorem nodup_keys_aggUpdate (a : List (Int × String × Nat)) (j : Int) (n : String)
    (q : Nat) (hnd : (keysOf a).Nodup) : (keysOf (aggUpdate a j n q)).Nodup := by
  cases hf : assocFind a j with
  | some p => rw [keysOf_aggUpdate_found a j n q p hf]; exact hnd
  | none =>
    rw [aggUpdate_notfound a j n q hf]
    have hj : j ∉ keysOf a := (assocFind_eq_none a j).mp hf
    rw [show keysOf (a ++ [(j, n, q)]) = keysOf a ++ [j] from by simp [keysOf]]
    simp [List.nodup_append, hnd, hj]

theorem head?_append_some {α : Type} (l l2 : List α) (x : α) (h : l.head? = some x) :
    (l ++ l2).head? = some x := by
  cases l with
  | nil => simp at h
  | cons y ys => simpa using h

/-- The invariant tying the `aggregated` association list to the processed
prefix of the parsed entries: keys are distinct, and each id maps to the
first hit's name paired with the total quantity of its hits. -/
def AggInv (dict : List (String × Int)) (pre : List Entry)
    (agg : List (Int × String × Nat)) : Prop :=
  (keysOf agg).Nodup ∧
  ∀ i : Int, assocFind agg i =
    (firstHit dict pre i).map (fun e => (e.1, sumQty dict pre i))

theorem aggStep_inv (dict : List (String × Int)) (pre : List Entry)
    (agg : List (Int × String × Nat)) (unm : List (String × Nat)) (e : Entry)
    (hinv : AggInv dict pre agg) (hunm : unm = unmSpec dict pre) :
    AggInv dict (pre ++ [e]) (aggStep dict (agg, unm) e).1 ∧
    (aggStep dict (agg, unm) e).2 = unmSpec dict (pre ++ [e]) := by
  obtain ⟨nm, q, om⟩ := e
  cases om with
  | true =>
    have hstep : aggStep dict (agg, unm) (nm, q, true) = (agg, unm) := rfl
    have hfeq : ∀ i, (pre ++ [(nm, q, true)]).filter (relevant dict i)
        = pre.filter (relevant dict i) := fun i => by
      simp [List.filter_append, relevant]
    have hueq : unmSpec dict (pre ++ [(nm, q, true)]) = unmSpec dict pre := by
      simp [unmSpec, List.filter_append]
    refine ⟨⟨hinv.1, fun i => ?_⟩, by rw [hstep, hueq]; exact hunm⟩
    rw [hstep]
    show assocFind agg i = ((pre ++ [(nm, q, true)]).filter (relevant dict i)).head?.map
      (fun e => (e.1, (((pre ++ [(nm, q, true)]).filter (relevant dict i)).map
        (fun e => e.2.1)).sum))
    rw [hfeq i]
    exact hinv.2 i
  | false =>
    cases hdl : dlookup dict nm with
    | none =>
      have hstep : aggStep dict (agg, unm) (nm, q, false) = (agg, unm ++ [(nm, q)]) := by
        simp [aggStep, hdl]
      have hfeq : ∀ i, (pre ++ [(nm, q, false)]).filter (relevant dict i)
          = pre.filter (relevant dict i) := fun i => by
        simp [List.filter_append, relevant, hdl]
      have hueq : unmSpec dict (pre ++ [(nm, q, false)])
          = unmSpec dict pre ++ [(nm, q)] := by
        simp [unmSpec, List.filter_append, hdl]
      refine ⟨⟨by rw [hstep]; exact hinv.1, fun i => ?_⟩, by rw [hstep, hueq, hunm]⟩
      rw [hstep]
      show assocFind agg i = ((pre ++ [(nm, q, false)]).filter (relevant dict i)).head?.map
        (fun e => (e.1, (((pre ++ [(nm, q, false)]).filter (relevant dict i)).map
          (fun e => e.2.1)).sum))
      rw [hfeq i]
      exact hinv.2 i
    | some j =>
      have hstep : aggStep dict (agg, unm) (nm, q, false)
          = (aggUpdate agg j nm q, unm) := by
        simp [aggStep, hdl]
      have hrel : relevant dict j (nm, q, false) = true := by
        simp [relevant, hdl]
      have hum : unmSpec dict (pre ++ [(nm, q, false)]) = unmSpec dict pre := by
        simp [unmSpec, List.filter_append, hdl]
      refine ⟨⟨?_, fun i => ?_⟩, by rw [hstep, hum]; exact hunm⟩
      · rw [hstep]; exact nodup_keys_aggUpdate agg j nm q hinv.1
      rw [hstep]
      by_cases hij : i = j
      · subst hij
        have hfeq : (pre ++ [(nm, q, false)]).filter (relevant dict i)
            = pre.filter (relevant dict i) ++ [(nm, q, false)] := by
          simp [List.filter_append, hrel]
        cases hf : assocFind agg i with
        | none =>
          have hfh : (firstHit dict pre i).map
              (fun e => (e.1, sumQty dict pre i)) = none := hf ▸ (hinv.2 i).symm
          have hnil : pre.filter (relevant dict i) = [] := by
            have := Option.map_eq_none.mp hfh
            rwa [firstHit, List.head?_eq_none_iff] at this
          rw [aggUpdate_notfound agg i nm q hf, assocFind_append_one agg i nm q hf]
          rw [firstHit, sumQty, hfeq, hnil]
          simp
        | some p =>
          obtain ⟨n0, q0⟩ := p
          have hfh : (firstHit dict pre i).map
              (fun e => (e.1, sumQty dict pre i)) = some (n0, q0) :=
            hf ▸ (hinv.2 i).symm
          obtain ⟨e0, he0, hconv⟩ := Option.map_eq_some.mp hfh
          have hn0 : e0.1 = n0 := congrArg Prod.fst hconv
          have hq0 : (List.map (fun e => e.2.1)
              (List.filter (relevant dict i) pre)).sum = q0 :=
            congrArg Prod.snd hconv
          rw [aggUpdate_found agg i nm n0 q q0 hf]
          rw [firstHit, hfeq, head?_append_some _ _ e0 (by rwa [firstHit] at he0)]
          rw [sumQty, hfeq]
          simp [hn0, hq0, List.map_append, List.sum_append]
      · rw [assocFind_aggUpdate_ne agg i j nm q hij]
        have hfeq : (pre ++ [(nm, q, false)]).filter (relevant dict i)
            = pre.filter (relevant dict i) := by
          have : relevant dict i (nm, q, false) = false := by
            simp only [relevant, hdl, Bool.not_false, Bool.true_and,
              decide_eq_false_iff_not]
            exact fun hcon => hij (Option.some.inj hcon).symm
          simp [List.filter_append, this]
        rw [firstHit, sumQty, hfeq]
        exact hinv.2 i

theorem foldl_aggStep_inv (dict : List (String × Int)) :
    ∀ (es pre : List Entry) (agg : List (Int × String × Nat))
      (unm : List (String × Nat)),
      AggInv dict pre agg → unm = unmSpec dict pre →
      AggInv dict (pre ++ es) (es.foldl (aggStep dict) (agg, unm)).1 ∧
      (es.foldl (aggStep dict) (agg, unm)).2 = unmSpec dict (pre ++ es) := by
  intro es
  induction es with
  | nil =>
    intro pre agg unm h1 h2
    simpa using ⟨h1, h2⟩
  | cons e es ih =>
    intro pre agg unm h1 h2
    have hstep := aggStep_inv dict pre agg unm e h1 h2
    have hrec := ih (pre ++ [e]) (aggStep dict (agg, unm) e).1
      (aggStep dict (agg, unm) e).2 hstep.1 hstep.2
    rw [show pre ++ e :: es = (pre ++ [e]) ++ es from by simp]
    simpa [List.foldl_cons] using hrec

theorem match_inventory_inv (raw : String) (dict : List (String × Int)) :
    AggInv dict (parse_add_listings_text raw (dict.map Prod.fst))
      (((parse_add_listings_text raw (dict.map Prod.fst)).foldl
        (aggStep dict) ([], [])).1) ∧
    (((parse_add_listings_text raw (dict.map Prod.fst)).foldl
        (aggStep dict) ([], [])).2)
      = unmSpec dict (parse_add_listings_text raw (dict.map Prod.fst)) := by
  have h0 : AggInv dict [] [] := ⟨List.nodup_nil, fun i => rfl⟩
  simpa using foldl_aggStep_inv dict
    (parse_add_listings_text raw (dict.map Prod.fst)) [] [] [] h0 rfl

end TMarket

namespace TMarket

/-! ## Claim C10 -/

theorem mem_flushEntry (st : PState) (e : Entry) (h : e ∈ flushEntry st) :
    ∃ n, st.name = some n ∧ e.1 = n := by
  cases hn : st.name with
  | none => rw [flushEntry, hn] at h; simp at h
  | some n =>
    rw [flushEntry, hn] at h
    simp only [List.mem_singleton] at h
    exact ⟨n, rfl, by rw [h]⟩

theorem parseLines_names (valid : List String) :
    ∀ (ls : List String) (st : PState),
      (∀ n, st.name = some n → n ∈ valid) →
      ∀ e ∈ parseLines valid ls st, e.1 ∈ valid := by
  intro ls
  induction ls with
  | nil =>
    intro st hst e he
    rw [parseLines] at he
    obtain ⟨n, hn, he1⟩ := mem_flushEntry st e he
    exact he1 ▸ hst n hn
  | cons l ls ih =>
    intro st hst e he
    rw [parseLines] at he
    by_cases hv : l ∈ valid
    · rw [if_pos hv] at he
      rcases List.mem_append.mp he with h1 | h2
      · obtain ⟨n, hn, he1⟩ := mem_flushEntry st e h1
        exact he1 ▸ hst n hn
      · exact ih (freshState l 1)
          (fun n hn => (Option.some.inj hn) ▸ hv) e h2
    · rw [if_neg hv] at he
      cases hsp : nameQtySplit l with
      | some p =>
        obtain ⟨nm, q⟩ := p
        rw [hsp] at he
        simp only [] at he
        by_cases hnv : nm ∈ valid
        · rw [if_pos hnv] at he
          rcases List.mem_append.mp he with h1 | h2
          · obtain ⟨n, hn, he1⟩ := mem_flushEntry st e h1
            exact he1 ▸ hst n hn
          · exact ih (freshState nm q)
              (fun n hn => (Option.some.inj hn) ▸ hnv) e h2
        · rw [if_neg hnv] at he
          by_cases hnone : st.name = none
          · rw [if_pos hnone] at he
            exact ih st hst e he
          · rw [if_neg hnone] at he
            by_cases hom : isOmitLine l = true
            · rw [if_pos hom] at he
              exact ih { st with omitted := true } (fun n hn => hst n hn) e he
            · rw [if_neg hom] at he
              cases hq : parseQtyLine l with
              | some q2 =>
                rw [hq] at he
                exact ih { st with qty := q2 } (fun n hn => hst n hn) e he
              | none =>
                rw [hq] at he
                exact ih st hst e he
      | none =>
        rw [hsp] at he
        simp only [] at he
        by_cases hnone : st.name = none
        · rw [if_pos hnone] at he
          exact ih st hst e he
        · rw [if_neg hnone] at he
          by_cases hom : isOmitLine l = true
          · rw [if_pos hom] at he
            exact ih { st with omitted := true } (fun n hn => hst n hn) e he
          · rw [if_neg hom] at he
            cases hq : parseQtyLine l with
            | some q2 =>
              rw [hq] at he
              exact ih { st with qty := q2 } (fun n hn => hst n hn) e he
            | none =>
              rw [hq] at he
              exact ih st hst e he

theorem parsed_names (raw : String) (valid : List String) :
    ∀ e ∈ parse_add_listings_text raw valid, e.1 ∈ valid :=
  fun e he =>
    parseLines_names valid _ ⟨none, 1, false⟩ (fun _ hn => by simp at hn) e he

theorem dlookup_isSome (d : List (String × Int)) (n : String) :
    (dlookup d n).isSome ↔ n ∈ d.map Prod.fst := by
  induction d with
  | nil => simp [dlookup]
  | cons x d ih =>
    obtain ⟨k, v⟩ := x
    by_cases h : k = n
    · simp [dlookup, h]
    · rw [show dlookup ((k, v) :: d) n = if k = n then some v else dlookup d n from rfl,
        if_neg h]
      simp only [List.map_cons, List.mem_cons]
      rw [ih]
      constructor
      · exact Or.inr
      · rintro (hh | hm)
        · exact absurd hh.symm h
        · exact hm

/-- C10: the `unmatched` component of `match_inventory` is always empty.
`parse_add_listings_text` only starts an item block for lines whose name is
in the valid-name set, and `match_inventory` passes exactly the dictionary's
key set as the valid names, so every parsed entry's name resolves in the
dictionary — an UnmatchedEntry can never be produced at the public
interface. -/
theorem C10_unmatched_empty (raw : String) (dict : List (String × Int)) :
    (∀ e ∈ parse_add_listings_text raw (dict.map Prod.fst),
      e.1 ∈ dict.map Prod.fst) ∧
    (match_inventory raw dict).2 = [] := by
  have hnames := parsed_names raw (dict.map Prod.fst)
  refine ⟨hnames, ?_⟩
  have hspec : (match_inventory raw dict).2 =
      unmSpec dict (parse_add_listings_text raw (dict.map Prod.fst)) :=
    (match_inventory_inv raw dict).2
  have hfil : (parse_add_listings_text raw (dict.map Prod.fst)).filter
      (fun e => !e.2.2 && (dlookup dict e.1).isNone) = [] := by
    rw [List.filter_eq_nil_iff]
    intro e he
    have hsome := (dlookup_isSome dict e.1).mpr (hnames e he)
    have hnone : (dlookup dict e.1).isNone = false := by
      cases hdl : dlookup dict e.1
      · rw [hdl] at hsome; simp at hsome
      · rfl
    simp [hnone]
  rw [hspec, unmSpec, hfil]
  rfl

end TMarket

namespace TMarket

/-! ## Claim C6 -/

/-- The tuple-to-record conversion used by `match_inventory`. -/
def toMatched (x : Int × String × Nat) : MatchedItem := ⟨x.2.1, x.1, x.2.2⟩

theorem match_inventory_fst (raw : String) (dict : List (String × Int)) :
    (match_inventory raw dict).1 =
      List.insertionSort leName
        (((parse_add_listings_text raw (dict.map Prod.fst)).foldl
          (aggStep dict) ([], [])).1.map toMatched) := rfl

/-- C6: over all raw texts and dictionaries, the matched output groups the
non-omitted parsed entries that resolve in the dictionary by resolved id:
ids are pairwise distinct, the result is sorted ascending by name, each
item's quantity is the sum of the quantities of all entries resolving to its
id, its display name is the name of the first such entry, and an id appears
in the output exactly when some non-omitted entry resolves to it. -/
theorem C6_aggregation (raw : String) (dict : List (String × Int)) :
    ((match_inventory raw dict).1.map (fun m => m.item_id)).Nodup ∧
    List.Sorted leName (match_inventory raw dict).1 ∧
    (∀ m ∈ (match_inventory raw dict).1,
      m.qty = sumQty dict (parse_add_listings_text raw (dict.map Prod.fst)) m.item_id ∧
      (firstHit dict (parse_add_listings_text raw (dict.map Prod.fst)) m.item_id).map
        (fun e => e.1) = some m.name) ∧
    (∀ i : Int,
      i ∈ (match_inventory raw dict).1.map (fun m => m.item_id) ↔
      ∃ e ∈ parse_add_listings_text raw (dict.map Prod.fst),
        relevant dict i e = true) := by
  obtain ⟨⟨hnd, hfind⟩, -⟩ := match_inventory_inv raw dict
  have hperm := List.perm_insertionSort leName
    (((parse_add_listings_text raw (dict.map Prod.fst)).foldl
      (aggStep dict) ([], [])).1.map toMatched)
  have hmap : ∀ a : List (Int × String × Nat),
      (a.map toMatched).map (fun m => m.item_id) = keysOf a := by
    intro a
    rw [List.map_map]
    rfl
  have hidperm : List.Perm ((match_inventory raw dict).1.map (fun m => m.item_id))
      (keysOf (((parse_add_listings_text raw (dict.map Prod.fst)).foldl
        (aggStep dict) ([], [])).1)) := by
    rw [match_inventory_fst, ← hmap]
    exact hperm.map _
  refine ⟨?_, ?_, ?_, ?_⟩
  · exact hidperm.nodup_iff.mpr hnd
  · rw [match_inventory_fst]
    exact List.sorted_insertionSort leName _
  · intro m hm
    rw [match_inventory_fst] at hm
    have hm2 := hperm.mem_iff.mp hm
    obtain ⟨x, hx, hcv⟩ := List.mem_map.mp hm2
    obtain ⟨x1, x2, x3⟩ := x
    subst hcv
    have hfound : assocFind (((parse_add_listings_text raw
        (dict.map Prod.fst)).foldl (aggStep dict) ([], [])).1) x1 = some (x2, x3) :=
      assocFind_mem _ x1 x2 x3 hnd hx
    have hspec := (hfind x1).symm.trans hfound
    obtain ⟨e0, he0, hcv2⟩ := Option.map_eq_some.mp hspec
    have hn0 : e0.1 = x2 := congrArg Prod.fst hcv2
    have hq0 : sumQty dict (parse_add_listings_text raw (dict.map Prod.fst)) x1 = x3 :=
      congrArg Prod.snd hcv2
    constructor
    · exact hq0.symm
    · show Option.map (fun e => e.1) (firstHit dict (parse_add_listings_text raw
        (dict.map Prod.fst)) x1) = some x2
      rw [he0]
      simp [hn0]
  · intro i
    constructor
    · intro hid
      have hkey := hidperm.mem_iff.mp hid
      cases hf : assocFind (((parse_add_listings_text raw
          (dict.map Prod.fst)).foldl (aggStep dict) ([], [])).1) i with
      | none => exact absurd hkey ((assocFind_eq_none _ i).mp hf)
      | some p =>
        have hspec := (hfind i).symm.trans hf
        obtain ⟨e0, he0, -⟩ := Option.map_eq_some.mp hspec
        have he0m : e0 ∈ (parse_add_listings_text raw
            (dict.map Prod.fst)).filter (relevant dict i) := by
          rw [firstHit] at he0
          exact List.mem_of_mem_head? (by rw [he0]; simp)
        obtain ⟨hmem, hrel⟩ := List.mem_filter.mp he0m
        exact ⟨e0, hmem, hrel⟩
    · rintro ⟨e, he, hrel⟩
      have hefil : e ∈ (parse_add_listings_text raw
          (dict.map Prod.fst)).filter (relevant dict i) :=
        List.mem_filter.mpr ⟨he, hrel⟩
      cases hfil : (parse_add_listings_text raw
          (dict.map Prod.fst)).filter (relevant dict i) with
      | nil => rw [hfil] at hefil; simp at hefil
      | cons y ys =>
        have hhead : firstHit dict (parse_add_listings_text raw
            (dict.map Prod.fst)) i = some y := by
          rw [firstHit, hfil]
          rfl
        have hsome := (hfind i).trans (by rw [hhead])
        have hmem := mem_of_assocFind _ i y.1
          (sumQty dict (parse_add_listings_text raw (dict.map Prod.fst)) i) hsome
        refine hidperm.mem_iff.mpr ?_
        exact List.mem_map.mpr ⟨_, hmem, rfl⟩
